import Mathlib

/-!
Verification of the client-side caching and data-retrieval layer of
`src/app_old.js` (lines 21-108): key normalization (`keyFrom`), the
durable last-known-good store (`getLKG`/`setLKG`), the in-memory layer
(`mem`), the single-flight map (`inflight`), the orchestrator
(`fetchWithCache`) and the background refresh (`swrRefresh`).

Modelling conventions:
- Timestamps are `Nat` milliseconds since the epoch (`Date.now()`).
- Response bodies are opaque `String` payloads.
- A URL is modelled at the level the code observes it: either it parses
  (`new URL(url)` succeeds), yielding a base (everything but the query
  string) and an ordered list of query parameters, or parsing throws.
- `localeCompare` is modelled as code-point comparison of the two names
  (`charListLe`); `Array.prototype.sort` is stable per the ECMAScript
  specification and is modelled as a stable insertion sort.
- The single-threaded event loop is modelled as a small-step system:
  a call to `fetchWithCache` runs synchronously up to its first network
  suspension (`callStep`); a pending foreground fetch (`Flight`, an
  entry of the `inflight` map) or background refresh (`Refresh`) settles
  later as a separate step (`flightDone` / `refreshDone`).
- Network outcomes (`fetch` + `res.json()`) are oracles: `success` is a
  2xx response with a parseable body, `failure` is a transport error, a
  non-2xx status, or a body-parse error (all reach the same `catch`).
- `localStorage.setItem` quota failures are an oracle flag `quotaFail`.
-/

/-- Code-point comparison of char lists: the model of `localeCompare` on
parameter names (`a[0].localeCompare(b[0])` yielding `<= 0`). -/
def charListLe : List Char → List Char → Bool
  | [], _ => true
  | _ :: _, [] => false
  | a :: as, b :: bs => if a < b then true else if b < a then false else charListLe as bs

/-- String comparison used to order query-parameter names. -/
def strLe (a b : String) : Bool := charListLe a.data b.data

/-- Ordering of query parameters: by name only, values ignored (the
comparator in `keyFrom` is `(a,b) => a[0].localeCompare(b[0])`). -/
def paramLE (a b : String × String) : Prop := strLe a.1 b.1 = true

instance : DecidableRel paramLE := fun a b => inferInstanceAs (Decidable (strLe a.1 b.1 = true))

/-- Sorting of `[...sp.entries()]` by parameter name: `Array.prototype.sort`
with a name-only comparator is a stable sort, modelled as insertion sort. -/
def sortParams (ps : List (String × String)) : List (String × String) :=
  List.insertionSort paramLE ps

/-- Serialization of query parameters in order (`URLSearchParams.toString`). -/
def paramsToString (ps : List (String × String)) : String :=
  String.intercalate "&" (ps.map fun p => p.1 ++ "=" ++ p.2)

/-- Reassembly of `u.toString()` after `u.search` is replaced with the
sorted query string (empty search yields no `?`). -/
def urlToString (base : String) (ps : List (String × String)) : String :=
  if ps.isEmpty then base else base ++ "?" ++ paramsToString ps

/-- A URL as `keyFrom` observes it: either `new URL(url)` succeeds and the
query decomposes into an ordered parameter list, or parsing throws. -/
inductive UrlInput where
  | parsed (base : String) (params : List (String × String))
  | malformed (raw : String)
deriving DecidableEq

/-- Model of `keyFrom` (src/app_old.js:28-39): normalize parameter order on
a parseable URL, fall back to the literal string on a parse failure,
always append the version tag. -/
def keyFrom (url : UrlInput) (v : String) : String :=
  match url with
  | .parsed base ps => urlToString base (sortParams ps) ++ "|v=" ++ v
  | .malformed raw => raw ++ "|v=" ++ v

/-- A cache record `{ data, fetchedAt, ttlSec }` as built by the fetch and
refresh paths. -/
structure CacheRecord where
  data : String
  fetchedAt : Nat
  ttlSec : Nat
deriving DecidableEq

/-- One `localStorage` cell as `getLKG` observes it: a JSON string that
parses to a record, a string that `JSON.parse` rejects (also covers the
falsy empty string), or a cell whose read throws a storage-access error. -/
inductive StoredVal where
  | record (r : CacheRecord)
  | corrupt (raw : String)
  | accessError
deriving DecidableEq

/-- Association-list lookup (model of `Map.prototype.get` /
`localStorage.getItem` keyed by cache key). -/
def alookup {β : Type} : List (String × β) → String → Option β
  | [], _ => none
  | (k', v) :: t, k => if k' = k then some v else alookup t k

/-- Association-list update (model of `Map.prototype.set` /
`localStorage.setItem`). -/
def aset {β : Type} : List (String × β) → String → β → List (String × β)
  | [], k, v => [(k, v)]
  | (k', v') :: t, k, v => if k' = k then (k, v) :: t else (k', v') :: aset t k v

/-- Model of `getLKG` (src/app_old.js:41-47): a missing cell, an
unparseable cell and a throwing read all yield `null` (`none`). -/
def getLKG (st : List (String × StoredVal)) (k : String) : Option CacheRecord :=
  match alookup st k with
  | none => none
  | some (.record r) => some r
  | some (.corrupt _) => none
  | some .accessError => none

/-- Model of `setLKG` (src/app_old.js:49-53): a quota failure is swallowed
and leaves the store unchanged. -/
def setLKG (st : List (String × StoredVal)) (k : String) (r : CacheRecord)
    (quotaFail : Bool) : List (String × StoredVal) :=
  if quotaFail then st else aset st k (.record r)

/-- The grace window `LKG_GRACE_MS = 60 * 60 * 1000` (src/app_old.js:26). -/
def LKG_GRACE_MS : Nat := 60 * 60 * 1000

/-- The freshness test applied by the orchestrator to both cache layers:
`(now - fetchedAt) < ttlSec * 1000` (src/app_old.js:61,65). -/
def isFreshAt (fetchedAt ttlSec now : Nat) : Bool :=
  now - fetchedAt < ttlSec * 1000

/-- The options object of `fetchWithCache` with the source defaults
`{ ttlSec = 300, retries = 1, version = '1' }` (src/app_old.js:55). -/
structure Options where
  ttlSec : Nat := 300
  retries : Nat := 1
  version : String := "1"
deriving DecidableEq

/-- The value `fetchWithCache` resolves with: `{ data, source, fetchedAt }`. -/
structure FWCResult where
  data : String
  source : String
  fetchedAt : Nat
deriving DecidableEq

/-- Outcome of one network attempt (`fetch` + `res.ok` + `res.json()`):
either a parsed 2xx body, or any thrown error (transport, non-2xx
`HTTP <status>`, or body-parse failure) carrying its message. -/
inductive FetchOutcome where
  | success (data : String)
  | failure (err : String)
deriving DecidableEq

instance : DecidableEq (Except String FWCResult) := fun a b =>
  match a, b with
  | .ok x, .ok y =>
    if h : x = y then isTrue (by rw [h]) else isFalse (by intro hc; cases hc; exact h rfl)
  | .error x, .error y =>
    if h : x = y then isTrue (by rw [h]) else isFalse (by intro hc; cases hc; exact h rfl)
  | .ok _, .error _ => isFalse (by intro hc; cases hc)
  | .error _, .ok _ => isFalse (by intro hc; cases hc)

/-- A pending entry of the `inflight` map: the anonymous async closure of
src/app_old.js:75-93, which captured `k`, `url`, `ttlSec`, the entry
timestamp `now` and the durable read `lkg` from the enclosing call. -/
structure Flight where
  key : String
  url : UrlInput
  ttlSec : Nat
  startedAt : Nat
  lkg0 : Option CacheRecord
deriving DecidableEq

/-- A pending background refresh: a running `swrRefresh` invocation
(src/app_old.js:98-108) suspended at its network await. -/
structure Refresh where
  key : String
  url : UrlInput
  ttlSec : Nat
deriving DecidableEq

/-- The shared module state: the `mem` map, the `localStorage` cells under
cache keys, the `inflight` map, and the multiset of running refreshes. -/
structure SysState where
  mem : List (String × CacheRecord)
  store : List (String × StoredVal)
  flights : List Flight
  refreshes : List Refresh
deriving DecidableEq

/-- What a single call to `fetchWithCache` does synchronously: resolve at
once with a value, await the pre-existing inflight promise for `key`, or
register a new flight for `key` (whose promise the caller then awaits). -/
inductive CallOutcome where
  | immediate (result : Except String FWCResult)
  | joined (key : String)
  | started (key : String)
deriving DecidableEq

/-- The tail of `fetchWithCache` from the single-flight check on
(src/app_old.js:72-95): join an existing flight, else register a new one.
The new flight is issued (its `fetch` starts) and registered within the
same synchronous step, so no other call can interleave between the two. -/
def startOrJoin (s : SysState) (k : String) (url : UrlInput) (ttlSec : Nat)
    (now : Nat) (lkg : Option CacheRecord) : CallOutcome × SysState :=
  if s.flights.any (fun f => f.key == k) then
    (.joined k, s)
  else
    (.started k, { s with flights := s.flights ++ [⟨k, url, ttlSec, now, lkg⟩] })

/-- The part of `fetchWithCache` after the in-memory check missed
(src/app_old.js:63-95): durable-fresh hit returns at once and spawns a
refresh, otherwise fall through to the single-flight network path. -/
def afterMem (s : SysState) (k : String) (url : UrlInput) (o : Options)
    (now : Nat) : CallOutcome × SysState :=
  match getLKG s.store k with
  | some r =>
    if isFreshAt r.fetchedAt o.ttlSec now then
      (.immediate (.ok ⟨r.data, "lkg", r.fetchedAt⟩),
       { s with refreshes := s.refreshes ++ [⟨k, url, o.ttlSec⟩],
                mem := aset s.mem k r })
    else
      startOrJoin s k url o.ttlSec now (some r)
  | none => startOrJoin s k url o.ttlSec now none

/-- The synchronous prefix of `fetchWithCache(url, { ttlSec, retries,
version })` (src/app_old.js:55-96), run at timestamp `now = Date.now()`. -/
def callStep (s : SysState) (url : UrlInput) (o : Options) (now : Nat) :
    CallOutcome × SysState :=
  let k := keyFrom url o.version
  match alookup s.mem k with
  | some inMem =>
    if isFreshAt inMem.fetchedAt o.ttlSec now then
      (.immediate (.ok ⟨inMem.data, "mem", inMem.fetchedAt⟩), s)
    else
      afterMem s k url o now
  | none => afterMem s k url o now

/-- The value the inflight promise settles with (src/app_old.js:77-89):
the parsed body tagged `net` on success; on failure the captured durable
record tagged `stale` when it is within `ttlSec*1000 + LKG_GRACE_MS` of
the captured entry timestamp, else rejection with the original error. -/
def resolveFlight (f : Flight) (out : FetchOutcome) : Except String FWCResult :=
  match out with
  | .success d => .ok ⟨d, "net", f.startedAt⟩
  | .failure e =>
    match f.lkg0 with
    | some r =>
      if f.startedAt - r.fetchedAt < f.ttlSec * 1000 + LKG_GRACE_MS then
        .ok ⟨r.data, "stale", r.fetchedAt⟩
      else
        .error e
    | none => .error e

/-- State effect of the inflight promise for `k` settling
(src/app_old.js:77-92): on success write `{ data, fetchedAt: now, ttlSec }`
to both layers (the durable write subject to quota); in the `finally`,
drop the inflight entry whatever the outcome. -/
def flightDone (s : SysState) (k : String) (out : FetchOutcome)
    (quotaFail : Bool) : SysState :=
  match s.flights.find? (fun f => f.key == k) with
  | none => s
  | some f =>
    let s1 : SysState := { s with flights := s.flights.filter (fun g => g.key != k) }
    match out with
    | .success d =>
      { s1 with mem := aset s1.mem f.key ⟨d, f.startedAt, f.ttlSec⟩,
                store := setLKG s1.store f.key ⟨d, f.startedAt, f.ttlSec⟩ quotaFail }
    | .failure _ => s1

/-- State effect of a running `swrRefresh` settling at time `t`
(src/app_old.js:98-108): on success write `{ data, fetchedAt: Date.now(),
ttlSec }` to both layers; a non-2xx response or any thrown error is
discarded. The refresh never produces a caller-visible value. -/
def refreshDone (s : SysState) (r : Refresh) (out : FetchOutcome) (t : Nat)
    (quotaFail : Bool) : SysState :=
  if s.refreshes.contains r then
    let s1 : SysState := { s with refreshes := s.refreshes.erase r }
    match out with
    | .success d =>
      { s1 with mem := aset s1.mem r.key ⟨d, t, r.ttlSec⟩,
                store := setLKG s1.store r.key ⟨d, t, r.ttlSec⟩ quotaFail }
    | .failure _ => s1
  else s

/-- One event-loop turn touching the cache layer. -/
inductive Event where
  | call (url : UrlInput) (o : Options) (now : Nat)
  | netDone (k : String) (out : FetchOutcome) (quotaFail : Bool)
  | refDone (r : Refresh) (out : FetchOutcome) (t : Nat) (quotaFail : Bool)
deriving DecidableEq

/-- State transition of one event-loop turn. -/
def stepEvent (s : SysState) : Event → SysState
  | .call url o now => (callStep s url o now).2
  | .netDone k out q => flightDone s k out q
  | .refDone r out t q => refreshDone s r out t q

/-- Run of a sequence of event-loop turns. -/
def runEvents (s : SysState) (es : List Event) : SysState :=
  es.foldl stepEvent s

/-- Number of network requests in flight for key `k`: pending foreground
flights plus pending background refreshes. -/
def netRequestsFor (s : SysState) (k : String) : Nat :=
  (s.flights.filter (fun f => f.key == k)).length +
  (s.refreshes.filter (fun r => r.key == k)).length

/-- Keys of the registered inflight entries. -/
def flightKeys (s : SysState) : List String :=
  s.flights.map Flight.key

/-- A burst of back-to-back calls to `fetchWithCache` with the same
arguments within one timestamp, collecting each call's outcome. -/
def runCalls (url : UrlInput) (o : Options) (now : Nat) :
    SysState → Nat → List CallOutcome × SysState
  | s, 0 => ([], s)
  | s, n + 1 =>
    let p := callStep s url o now
    let q := runCalls url o now p.2 n
    (p.1 :: q.1, q.2)

def charListLe_total : ∀ x y : List Char, charListLe x y = true ∨ charListLe y x = true
  | [], _ => Or.inl rfl
  | _ :: _, [] => Or.inr rfl
  | a :: as, b :: bs => by
    rcases lt_trichotomy a b with h | h | h
    · left; simp [charListLe, h]
    · subst h
      rcases charListLe_total as bs with ih | ih
      · left; simp [charListLe, lt_irrefl, ih]
      · right; simp [charListLe, lt_irrefl, ih]
    · right; simp [charListLe, h]

def charListLe_trans : ∀ x y z : List Char, charListLe x y = true →
    charListLe y z = true → charListLe x z = true
  | [], _, _, _, _ => rfl
  | _ :: _, [], _, hxy, _ => by simp [charListLe] at hxy
  | _ :: _, _ :: _, [], _, hyz => by simp [charListLe] at hyz
  | a :: as, b :: bs, c :: cs, hxy, hyz => by
    rcases lt_trichotomy a b with hab | hab | hab
    · rcases lt_trichotomy b c with hbc | hbc | hbc
      · simp [charListLe, lt_trans hab hbc]
      · subst hbc; simp [charListLe, hab]
      · simp [charListLe, asymm hbc, hbc] at hyz
    · subst hab
      rcases lt_trichotomy a c with hac | hac | hac
      · simp [charListLe, hac]
      · subst hac
        simp only [charListLe, lt_irrefl, if_false] at hxy hyz ⊢
        exact charListLe_trans as bs cs hxy hyz
      · simp [charListLe, asymm hac, hac] at hyz
    · simp [charListLe, asymm hab, hab] at hxy

def charListLe_antisymm : ∀ x y : List Char, charListLe x y = true →
    charListLe y x = true → x = y
  | [], [], _, _ => rfl
  | [], _ :: _, _, hyx => by simp [charListLe] at hyx
  | _ :: _, [], hxy, _ => by simp [charListLe] at hxy
  | a :: as, b :: bs, hxy, hyx => by
    rcases lt_trichotomy a b with hab | hab | hab
    · simp [charListLe, asymm hab, hab] at hyx
    · subst hab
      simp only [charListLe, lt_irrefl, if_false] at hxy hyx
      rw [charListLe_antisymm as bs hxy hyx]
    · simp [charListLe, asymm hab, hab] at hxy

def strLe_total (a b : String) : strLe a b = true ∨ strLe b a = true :=
  charListLe_total a.data b.data

def strLe_trans {a b c : String} (h1 : strLe a b = true) (h2 : strLe b c = true) :
    strLe a c = true :=
  charListLe_trans _ _ _ h1 h2

def strLe_antisymm {a b : String} (h1 : strLe a b = true) (h2 : strLe b a = true) :
    a = b :=
  String.ext (charListLe_antisymm _ _ h1 h2)

instance : IsTotal (String × String) paramLE := ⟨fun a b => strLe_total a.1 b.1⟩

instance : IsTrans (String × String) paramLE := ⟨fun _ _ _ h1 h2 => strLe_trans h1 h2⟩

/-- A parseable URL with no query parameters, used in concrete scenarios. -/
def cexUrl : UrlInput := .parsed "https://api.example.com/data" []

/-- The source defaults `{ ttlSec: 300, retries: 1, version: '1' }`. -/
def cexOpts : Options := ⟨300, 1, "1"⟩

/-- The cache key of `cexUrl` under version `"1"`. -/
def cexKey : String := keyFrom cexUrl "1"

/-- A durable record fetched at epoch 0 with a 300 second TTL. -/
def cexRec : CacheRecord := ⟨"old", 0, 300⟩

/-- Page-load state: empty in-memory layer, no pending network activity,
one persisted durable record for `cexKey` (written during an earlier
page visit). -/
def cexInit : SysState := ⟨[], [(cexKey, .record cexRec)], [], []⟩

/-- Two calls for the same key: one at 299999 ms (the durable record is
fresh for one more millisecond, so the SWR path fires a background
refresh), one at 300000 ms (both copies just expired, so the
single-flight path starts a foreground fetch while the refresh from the
first call is still in flight). -/
def cexEvents : List Event :=
  [.call cexUrl cexOpts 299999, .call cexUrl cexOpts 300000]

/-- The URL of end-to-end scenario A, with query parameters out of order. -/
def scnUrl : UrlInput := .parsed "https://x/y" [("b", "2"), ("a", "1")]

/-- The cache key of `scnUrl` under version `"1"`. -/
def scnKey : String := keyFrom scnUrl "1"

/-- Scenario A after the first call completed over the network at
timestamp 5000: the empty initial state, one call (which starts a
flight), and that flight settling successfully with body `payload`. -/
def scnAfterFirst : SysState :=
  flightDone (callStep ⟨[], [], [], []⟩ scnUrl cexOpts 5000).2 scnKey
    (.success "payload") false

theorem sorted_perm_nodup_eq : ∀ {l1 l2 : List (String × String)},
    l1.Sorted paramLE → l2.Sorted paramLE → List.Perm l1 l2 →
    (l1.map Prod.fst).Nodup → l1 = l2 := by
  intro l1
  induction l1 with
  | nil =>
    intro l2 _ _ hp _
    exact hp.nil_eq
  | cons a t1 ih =>
    intro l2 hs1 hs2 hp hnd
    cases l2 with
    | nil => exact absurd hp.eq_nil (List.cons_ne_nil a t1)
    | cons b t2 =>
      have hab : a = b := by
        by_contra hne
        have hb1 : b ∈ a :: t1 := hp.mem_iff.mpr (List.mem_cons_self b t2)
        have ha2 : a ∈ b :: t2 := hp.mem_iff.mp (List.mem_cons_self a t1)
        have hbt1 : b ∈ t1 := by
          rcases List.mem_cons.mp hb1 with h | h
          · exact absurd h.symm hne
          · exact h
        have hat2 : a ∈ t2 := by
          rcases List.mem_cons.mp ha2 with h | h
          · exact absurd h hne
          · exact h
        have h1 : paramLE a b := (List.sorted_cons.mp hs1).1 b hbt1
        have h2 : paramLE b a := (List.sorted_cons.mp hs2).1 a hat2
        have hfst : a.1 = b.1 := strLe_antisymm h1 h2
        have hnotin : a.1 ∉ t1.map Prod.fst := (List.nodup_cons.mp hnd).1
        exact hnotin (hfst ▸ List.mem_map_of_mem Prod.fst hbt1)
      subst hab
      rw [ih hs1.of_cons hs2.of_cons hp.cons_inv (List.nodup_cons.mp hnd).2]

theorem sortParams_perm_eq {ps1 ps2 : List (String × String)}
    (hperm : List.Perm ps1 ps2) (hnd : (ps1.map Prod.fst).Nodup) :
    sortParams ps1 = sortParams ps2 :=
  sorted_perm_nodup_eq (List.sorted_insertionSort paramLE ps1)
    (List.sorted_insertionSort paramLE ps2)
    ((List.perm_insertionSort paramLE ps1).trans
      (hperm.trans (List.perm_insertionSort paramLE ps2).symm))
    (((List.perm_insertionSort paramLE ps1).map Prod.fst).nodup_iff.mpr hnd)

theorem string_append_left_cancel {s t u : String} (h : s ++ t = s ++ u) : t = u := by
  have h2 := congrArg String.data h
  simp only [String.data_append] at h2
  exact String.ext (List.append_cancel_left h2)

theorem keyFrom_version_inj {url : UrlInput} {v1 v2 : String}
    (h : keyFrom url v1 = keyFrom url v2) : v1 = v2 := by
  cases url with
  | parsed base ps => exact string_append_left_cancel h
  | malformed raw => exact string_append_left_cancel h

theorem alookup_aset_self {β : Type} (l : List (String × β)) (k : String) (v : β) :
    alookup (aset l k v) k = some v := by
  induction l with
  | nil => simp [aset, alookup]
  | cons p t ih =>
    obtain ⟨k', v'⟩ := p
    by_cases h : k' = k
    · simp [aset, alookup, h]
    · simp [aset, alookup, h, ih]

theorem any_key_false_of_all_ne {l : List Flight} {k : String}
    (h : l.all (fun f => f.key != k) = true) :
    l.any (fun f => f.key == k) = false := by
  simp only [List.all_eq_true, bne_iff_ne, ne_eq] at h
  simp only [List.any_eq_false, beq_iff_eq]
  exact h

theorem callStep_start {s : SysState} {url : UrlInput} {o : Options} {now : Nat}
    (hmem : ∀ r, alookup s.mem (keyFrom url o.version) = some r →
      isFreshAt r.fetchedAt o.ttlSec now = false)
    (hlkg : ∀ r, getLKG s.store (keyFrom url o.version) = some r →
      isFreshAt r.fetchedAt o.ttlSec now = false)
    (hfl : s.flights.all (fun f => f.key != keyFrom url o.version) = true) :
    callStep s url o now =
      (.started (keyFrom url o.version),
       { s with flights := s.flights ++
          [⟨keyFrom url o.version, url, o.ttlSec, now,
            getLKG s.store (keyFrom url o.version)⟩] }) := by
  have hany := any_key_false_of_all_ne hfl
  unfold callStep afterMem startOrJoin
  cases hm : alookup s.mem (keyFrom url o.version) with
  | none =>
    cases hl : getLKG s.store (keyFrom url o.version) with
    | none => simp [hm, hl, hany]
    | some r => simp [hm, hl, hany, hlkg r hl]
  | some rm =>
    cases hl : getLKG s.store (keyFrom url o.version) with
    | none => simp [hm, hl, hany, hmem rm hm]
    | some r => simp [hm, hl, hany, hmem rm hm, hlkg r hl]

theorem callStep_join {s : SysState} {url : UrlInput} {o : Options} {now : Nat}
    (hmem : ∀ r, alookup s.mem (keyFrom url o.version) = some r →
      isFreshAt r.fetchedAt o.ttlSec now = false)
    (hlkg : ∀ r, getLKG s.store (keyFrom url o.version) = some r →
      isFreshAt r.fetchedAt o.ttlSec now = false)
    (hany : s.flights.any (fun f => f.key == keyFrom url o.version) = true) :
    callStep s url o now = (.joined (keyFrom url o.version), s) := by
  unfold callStep afterMem startOrJoin
  cases hm : alookup s.mem (keyFrom url o.version) with
  | none =>
    cases hl : getLKG s.store (keyFrom url o.version) with
    | none => simp [hm, hl, hany]
    | some r => simp [hm, hl, hany, hlkg r hl]
  | some rm =>
    cases hl : getLKG s.store (keyFrom url o.version) with
    | none => simp [hm, hl, hany, hmem rm hm]
    | some r => simp [hm, hl, hany, hmem rm hm, hlkg r hl]

theorem callStep_lkgFresh {s : SysState} {url : UrlInput} {o : Options} {now : Nat}
    {r : CacheRecord}
    (hmem : ∀ rm, alookup s.mem (keyFrom url o.version) = some rm →
      isFreshAt rm.fetchedAt o.ttlSec now = false)
    (hlkg : getLKG s.store (keyFrom url o.version) = some r)
    (hfresh : isFreshAt r.fetchedAt o.ttlSec now = true) :
    callStep s url o now =
      (.immediate (.ok ⟨r.data, "lkg", r.fetchedAt⟩),
       { s with refreshes := s.refreshes ++ [⟨keyFrom url o.version, url, o.ttlSec⟩],
                mem := aset s.mem (keyFrom url o.version) r }) := by
  unfold callStep afterMem
  cases hm : alookup s.mem (keyFrom url o.version) with
  | none => simp [hm, hlkg, hfresh]
  | some rm => simp [hm, hlkg, hfresh, hmem rm hm]

theorem runCalls_joined {s : SysState} {url : UrlInput} {o : Options} {now : Nat}
    (hmem : ∀ r, alookup s.mem (keyFrom url o.version) = some r →
      isFreshAt r.fetchedAt o.ttlSec now = false)
    (hlkg : ∀ r, getLKG s.store (keyFrom url o.version) = some r →
      isFreshAt r.fetchedAt o.ttlSec now = false)
    (hany : s.flights.any (fun f => f.key == keyFrom url o.version) = true) :
    ∀ n, runCalls url o now s n =
      (List.replicate n (.joined (keyFrom url o.version)), s)
  | 0 => rfl
  | n + 1 => by
    simp only [runCalls, callStep_join hmem hlkg hany,
      runCalls_joined hmem hlkg hany n, List.replicate]

theorem callStep_flights_cases (s : SysState) (url : UrlInput) (o : Options) (now : Nat) :
    (callStep s url o now).2.flights = s.flights ∨
    ((callStep s url o now).2.flights = s.flights ++
        [⟨keyFrom url o.version, url, o.ttlSec, now,
          getLKG s.store (keyFrom url o.version)⟩] ∧
      s.flights.any (fun f => f.key == keyFrom url o.version) = false) := by
  unfold callStep afterMem startOrJoin
  cases hm : alookup s.mem (keyFrom url o.version) with
  | none =>
    cases hl : getLKG s.store (keyFrom url o.version) with
    | none =>
      by_cases hany : s.flights.any (fun f => f.key == keyFrom url o.version) = true
      · left; simp [hm, hl, hany]
      · right; simp [hm, hl, hany]
    | some r =>
      by_cases hf : isFreshAt r.fetchedAt o.ttlSec now = true
      · left; simp [hm, hl, hf]
      · by_cases hany : s.flights.any (fun f => f.key == keyFrom url o.version) = true
        · left; simp [hm, hl, hf, hany]
        · right; simp [hm, hl, hf, hany]
  | some rm =>
    by_cases hfm : isFreshAt rm.fetchedAt o.ttlSec now = true
    · left; simp [hm, hfm]
    · cases hl : getLKG s.store (keyFrom url o.version) with
      | none =>
        by_cases hany : s.flights.any (fun f => f.key == keyFrom url o.version) = true
        · left; simp [hm, hfm, hl, hany]
        · right; simp [hm, hfm, hl, hany]
      | some r =>
        by_cases hf : isFreshAt r.fetchedAt o.ttlSec now = true
        · left; simp [hm, hfm, hl, hf]
        · by_cases hany : s.flights.any (fun f => f.key == keyFrom url o.version) = true
          · left; simp [hm, hfm, hl, hf, hany]
          · right; simp [hm, hfm, hl, hf, hany]

theorem nodup_flightKeys_callStep (s : SysState) (url : UrlInput) (o : Options)
    (now : Nat) (h : (flightKeys s).Nodup) :
    (flightKeys (callStep s url o now).2).Nodup := by
  rcases callStep_flights_cases s url o now with hc | ⟨hc, hany⟩
  · simpa [flightKeys, hc] using h
  · have hnotin : keyFrom url o.version ∉ s.flights.map Flight.key := by
      simp only [List.any_eq_false, beq_iff_eq] at hany
      simp only [List.mem_map, not_exists]
      rintro f ⟨hf, hkey⟩
      exact hany f hf hkey
    simp only [flightKeys, hc, List.map_append, List.map_cons, List.map_nil,
      List.nodup_append, List.nodup_cons, List.not_mem_nil, not_false_iff,
      List.nodup_nil, and_true, true_and]
    exact ⟨h, fun a ha hmem => hnotin (by simpa [List.mem_singleton.mp hmem] using ha)⟩

theorem nodup_flightKeys_flightDone (s : SysState) (k : String) (out : FetchOutcome)
    (q : Bool) (h : (flightKeys s).Nodup) :
    (flightKeys (flightDone s k out q)).Nodup := by
  unfold flightDone
  cases hf : s.flights.find? (fun f => f.key == k) with
  | none => exact h
  | some f =>
    have hsub : List.Sublist ((s.flights.filter (fun g => g.key != k)).map Flight.key)
        (s.flights.map Flight.key) := (List.filter_sublist s.flights).map Flight.key
    have hnd : ((s.flights.filter (fun g => g.key != k)).map Flight.key).Nodup :=
      hsub.nodup h
    cases out <;> simpa [flightKeys] using hnd

theorem nodup_flightKeys_refreshDone (s : SysState) (r : Refresh) (out : FetchOutcome)
    (t : Nat) (q : Bool) (h : (flightKeys s).Nodup) :
    (flightKeys (refreshDone s r out t q)).Nodup := by
  unfold refreshDone
  split
  · cases out <;> simpa [flightKeys] using h
  · exact h

theorem nodup_flightKeys_stepEvent (s : SysState) (e : Event)
    (h : (flightKeys s).Nodup) : (flightKeys (stepEvent s e)).Nodup := by
  cases e with
  | call url o now => exact nodup_flightKeys_callStep s url o now h
  | netDone k out q => exact nodup_flightKeys_flightDone s k out q h
  | refDone r out t q => exact nodup_flightKeys_refreshDone s r out t q h

theorem nodup_flightKeys_runEvents : ∀ (es : List Event) (s : SysState),
    (flightKeys s).Nodup → (flightKeys (runEvents s es)).Nodup
  | [], _, h => h
  | e :: es, s, h =>
    nodup_flightKeys_runEvents es (stepEvent s e) (nodup_flightKeys_stepEvent s e h)

theorem filter_key_filter_ne (l : List Flight) (k : String) :
    (l.filter (fun g => g.key != k)).filter (fun f => f.key == k) = [] := by
  induction l with
  | nil => rfl
  | cons f t ih =>
    rcases Bool.eq_false_or_eq_true (f.key == k) with hb | hb
    · have hbne : (f.key != k) = false := by simp [bne, hb]
      simp [List.filter_cons, hbne, ih]
    · have hbne : (f.key != k) = true := by simp [bne, hb]
      simp [List.filter_cons, hb, hbne, ih]

theorem flightDone_no_flight {s : SysState} {k : String} (out : FetchOutcome) (q : Bool)
    (hex : s.flights.any (fun f => f.key == k) = true) :
    (flightDone s k out q).flights.filter (fun f => f.key == k) = [] := by
  unfold flightDone
  cases hf : s.flights.find? (fun f => f.key == k) with
  | none =>
    exfalso
    simp only [List.any_eq_true, beq_iff_eq] at hex
    obtain ⟨f, hmem, hkey⟩ := hex
    have := List.find?_eq_none.mp hf f hmem
    simp [hkey] at this
  | some f =>
    cases out <;> simp [filter_key_filter_ne]

theorem callStep_cases (s : SysState) (url : UrlInput) (o : Options) (now : Nat) :
    (∃ r : FWCResult, (callStep s url o now).1 = .immediate (.ok r) ∧
      (r.source = "mem" ∨ r.source = "lkg") ∧
      (callStep s url o now).2.flights = s.flights) ∨
    ((callStep s url o now).1 = .joined (keyFrom url o.version) ∧
      (callStep s url o now).2 = s) ∨
    ((callStep s url o now).1 = .started (keyFrom url o.version) ∧
      (callStep s url o now).2 = { s with flights := s.flights ++
        [⟨keyFrom url o.version, url, o.ttlSec, now,
          getLKG s.store (keyFrom url o.version)⟩] }) := by
  unfold callStep afterMem startOrJoin
  cases hm : alookup s.mem (keyFrom url o.version) with
  | none =>
    cases hl : getLKG s.store (keyFrom url o.version) with
    | none =>
      by_cases hany : s.flights.any (fun f => f.key == keyFrom url o.version) = true
      · right; left; simp [hm, hl, hany]
      · right; right; simp [hm, hl, hany]
    | some r =>
      by_cases hf : isFreshAt r.fetchedAt o.ttlSec now = true
      · left; exact ⟨⟨r.data, "lkg", r.fetchedAt⟩, by simp [hm, hl, hf], Or.inr rfl,
          by simp [hm, hl, hf]⟩
      · by_cases hany : s.flights.any (fun f => f.key == keyFrom url o.version) = true
        · right; left; simp [hm, hl, hf, hany]
        · right; right; simp [hm, hl, hf, hany]
  | some rm =>
    by_cases hfm : isFreshAt rm.fetchedAt o.ttlSec now = true
    · left
      exact ⟨⟨rm.data, "mem", rm.fetchedAt⟩, by simp [hm, hfm], Or.inl rfl, by simp [hm, hfm]⟩
    · cases hl : getLKG s.store (keyFrom url o.version) with
      | none =>
        by_cases hany : s.flights.any (fun f => f.key == keyFrom url o.version) = true
        · right; left; simp [hm, hfm, hl, hany]
        · right; right; simp [hm, hfm, hl, hany]
      | some r =>
        by_cases hf : isFreshAt r.fetchedAt o.ttlSec now = true
        · left; exact ⟨⟨r.data, "lkg", r.fetchedAt⟩, by simp [hm, hfm, hl, hf], Or.inr rfl,
            by simp [hm, hfm, hl, hf]⟩
        · by_cases hany : s.flights.any (fun f => f.key == keyFrom url o.version) = true
          · right; left; simp [hm, hfm, hl, hf, hany]
          · right; right; simp [hm, hfm, hl, hf, hany]

theorem runCalls_burst {s : SysState} {url : UrlInput} {o : Options} {now : Nat}
    (hmem : ∀ r, alookup s.mem (keyFrom url o.version) = some r →
      isFreshAt r.fetchedAt o.ttlSec now = false)
    (hlkg : ∀ r, getLKG s.store (keyFrom url o.version) = some r →
      isFreshAt r.fetchedAt o.ttlSec now = false)
    (hfl : s.flights.all (fun f => f.key != keyFrom url o.version) = true)
    (n : Nat) :
    runCalls url o now s (n + 1) =
      (.started (keyFrom url o.version) ::
        List.replicate n (.joined (keyFrom url o.version)),
       { s with flights := s.flights ++
          [⟨keyFrom url o.version, url, o.ttlSec, now,
            getLKG s.store (keyFrom url o.version)⟩] }) := by
  have hstart := callStep_start hmem hlkg hfl
  have hany1 : (({ s with flights := s.flights ++
      [⟨keyFrom url o.version, url, o.ttlSec, now,
        getLKG s.store (keyFrom url o.version)⟩] } : SysState).flights.any
        (fun f => f.key == keyFrom url o.version)) = true := by
    simp [List.any_append]
  have hrest := runCalls_joined (s := { s with flights := s.flights ++
      [⟨keyFrom url o.version, url, o.ttlSec, now,
        getLKG s.store (keyFrom url o.version)⟩] }) hmem hlkg hany1 n
  simp only [runCalls, hstart, hrest]

/-- C1 (amended): at most one entry of the `inflight` map exists per key at
any time — from any state whose inflight keys are pairwise distinct (in
particular the initial state with none), every interleaving of calls,
flight settlements and refresh settlements preserves that distinctness —
and every call that reaches the single-flight check (both cache layers
missed or were stale) while an entry for its key is registered awaits that
same entry's outcome instead of starting another request. The original
claim is refuted for network activity as a whole: a background refresh is
issued without being registered in the `inflight` map, so it can overlap a
registered foreground request for the same key (see the counterexample). -/
theorem c1_single_flight_per_key :
    (∀ (s0 : SysState) (es : List Event), (flightKeys s0).Nodup →
      (flightKeys (runEvents s0 es)).Nodup) ∧
    (∀ (s : SysState) (url : UrlInput) (o : Options) (now : Nat),
      (∀ r, alookup s.mem (keyFrom url o.version) = some r →
        isFreshAt r.fetchedAt o.ttlSec now = false) →
      (∀ r, getLKG s.store (keyFrom url o.version) = some r →
        isFreshAt r.fetchedAt o.ttlSec now = false) →
      s.flights.any (fun f => f.key == keyFrom url o.version) = true →
      callStep s url o now = (.joined (keyFrom url o.version), s)) :=
  ⟨fun s0 es h => nodup_flightKeys_runEvents es s0 h,
   fun _ _ _ _ hm hl ha => callStep_join hm hl ha⟩

/-- C1 witness: the invariant holds along the concrete two-call trace, and a
third call arriving while a flight for the key is registered joins it. -/
theorem c1_single_flight_witness :
    ((flightKeys cexInit).Nodup ∧ (flightKeys (runEvents cexInit cexEvents)).Nodup) ∧
    callStep ⟨[], [], [⟨cexKey, cexUrl, 300, 300000, none⟩], []⟩ cexUrl cexOpts 400000 =
      (.joined cexKey, ⟨[], [], [⟨cexKey, cexUrl, 300, 300000, none⟩], []⟩) :=
  ⟨⟨by decide, c1_single_flight_per_key.1 cexInit cexEvents (by decide)⟩,
   c1_single_flight_per_key.2 ⟨[], [], [⟨cexKey, cexUrl, 300, 300000, none⟩], []⟩
     cexUrl cexOpts 400000
     (fun r hr => by simp [alookup] at hr)
     (fun r hr => by simp [getLKG, alookup] at hr)
     (by decide)⟩

/-- C1 counterexample: the claim as stated — at most one in-flight network
request per key counting the background refresh — is false. From a state
with one fresh-for-one-more-millisecond durable record and no pending
activity, a call at 299999 ms fires an unregistered background refresh and
a call at 300000 ms starts a registered foreground fetch for the same key,
so two network requests for the key are in flight at once. -/
theorem c1_counterexample :
    netRequestsFor (runEvents cexInit cexEvents) cexKey = 2 ∧
    ¬ (netRequestsFor (runEvents cexInit cexEvents) cexKey ≤ 1) := by decide

/-- C2: when the network attempt of a flight fails (transport error or
non-2xx both reach the same `catch`), the call resolves with the durable
record captured at entry, tagged `stale` and carrying its original
`fetchedAt`, exactly when that record's age at the entry timestamp is
below `ttlSec * 1000 + LKG_GRACE_MS`; otherwise the promise rejects with
the underlying cause (the spec's `FetchFailed`). A rejection reaches a
caller only under that condition: a rejected flight implies a failed
attempt with no in-grace captured record, and every synchronous return
path of `fetchWithCache` resolves, never rejects. -/
theorem c2_stale_fallback_on_failure :
    (∀ (f : Flight) (e : String) (r : CacheRecord), f.lkg0 = some r →
      f.startedAt - r.fetchedAt < f.ttlSec * 1000 + LKG_GRACE_MS →
      resolveFlight f (.failure e) = .ok ⟨r.data, "stale", r.fetchedAt⟩) ∧
    (∀ (f : Flight) (e : String),
      (∀ r, f.lkg0 = some r →
        ¬ (f.startedAt - r.fetchedAt < f.ttlSec * 1000 + LKG_GRACE_MS)) →
      resolveFlight f (.failure e) = .error e) ∧
    (∀ (f : Flight) (out : FetchOutcome) (e : String),
      resolveFlight f out = .error e →
      out = .failure e ∧
      ∀ r, f.lkg0 = some r →
        ¬ (f.startedAt - r.fetchedAt < f.ttlSec * 1000 + LKG_GRACE_MS)) ∧
    (∀ (s : SysState) (url : UrlInput) (o : Options) (now : Nat)
      (x : Except String FWCResult),
      (callStep s url o now).1 = .immediate x → ∃ v, x = .ok v) := by
  refine ⟨?_, ?_, ?_, ?_⟩
  · intro f e r hr hlt
    simp [resolveFlight, hr, hlt]
  · intro f e h
    cases hl : f.lkg0 with
    | none => simp [resolveFlight, hl]
    | some r => simp [resolveFlight, hl, h r hl]
  · intro f out e h
    cases out with
    | success d => simp [resolveFlight] at h
    | failure e' =>
      cases hl : f.lkg0 with
      | none =>
        simp only [resolveFlight, hl] at h
        cases h
        exact ⟨rfl, fun r hr => by simp [hl] at hr⟩
      | some r =>
        by_cases hlt : f.startedAt - r.fetchedAt < f.ttlSec * 1000 + LKG_GRACE_MS
        · simp [resolveFlight, hl, hlt] at h
        · simp only [resolveFlight, hl, if_neg hlt] at h
          cases h
          exact ⟨rfl, fun r' hr' => (Option.some_inj.mp hr') ▸ hlt⟩
  · intro s url o now x h
    rcases callStep_cases s url o now with ⟨r, hc, _, _⟩ | ⟨hc, _⟩ | ⟨hc, _⟩
    · rw [hc] at h
      cases h
      exact ⟨r, rfl⟩
    · rw [hc] at h
      cases h
    · rw [hc] at h
      cases h

/-- C2 witness: a failed flight whose captured record is thirty minutes
past its TTL (inside the 60-minute grace) resolves stale with the old
data; one aged past `ttl + 3700` seconds rejects with the cause. -/
theorem c2_stale_fallback_witness :
    resolveFlight ⟨cexKey, cexUrl, 300, 2100000, some cexRec⟩ (.failure "boom") =
      .ok ⟨"old", "stale", 0⟩ ∧
    resolveFlight ⟨cexKey, cexUrl, 300, 4000000, some cexRec⟩ (.failure "boom") =
      .error "boom" :=
  ⟨c2_stale_fallback_on_failure.1 ⟨cexKey, cexUrl, 300, 2100000, some cexRec⟩
     "boom" cexRec rfl (by decide),
   c2_stale_fallback_on_failure.2.1 ⟨cexKey, cexUrl, 300, 4000000, some cexRec⟩
     "boom" (fun r hr => by cases hr; decide)⟩

/-- C3 (amended): when the in-memory copy is absent or stale but the
durable store holds a fresh record, the call returns immediately (no
network await) with that record's data and original `fetchedAt`, tagged
with the durable-hit tag — which in the code is the string `lkg`, not the
spec's `durable` — copies the record into the in-memory layer, and fires
an unawaited background refresh; when that refresh later succeeds it
writes the new record to both layers, and when it fails it only completes,
changing nothing and surfacing nothing to the caller (whose result was
already fixed at call time). -/
theorem c3_stale_while_revalidate :
    (∀ (s : SysState) (url : UrlInput) (o : Options) (now : Nat) (r : CacheRecord),
      (∀ rm, alookup s.mem (keyFrom url o.version) = some rm →
        isFreshAt rm.fetchedAt o.ttlSec now = false) →
      getLKG s.store (keyFrom url o.version) = some r →
      isFreshAt r.fetchedAt o.ttlSec now = true →
      callStep s url o now =
        (.immediate (.ok ⟨r.data, "lkg", r.fetchedAt⟩),
         { s with refreshes := s.refreshes ++ [⟨keyFrom url o.version, url, o.ttlSec⟩],
                  mem := aset s.mem (keyFrom url o.version) r })) ∧
    (∀ (s : SysState) (rr : Refresh) (d : String) (t : Nat),
      s.refreshes.contains rr = true →
      refreshDone s rr (.success d) t false =
        { s with refreshes := s.refreshes.erase rr,
                 mem := aset s.mem rr.key ⟨d, t, rr.ttlSec⟩,
                 store := aset s.store rr.key (.record ⟨d, t, rr.ttlSec⟩) }) ∧
    (∀ (s : SysState) (rr : Refresh) (e : String) (t : Nat) (q : Bool),
      s.refreshes.contains rr = true →
      refreshDone s rr (.failure e) t q =
        { s with refreshes := s.refreshes.erase rr }) := by
  refine ⟨?_, ?_, ?_⟩
  · intro s url o now r hmem hlkg hfresh
    exact callStep_lkgFresh hmem hlkg hfresh
  · intro s rr d t hc
    unfold refreshDone
    rw [if_pos hc]
    simp [setLKG]
  · intro s rr e t q hc
    unfold refreshDone
    rw [if_pos hc]

/-- C3 witness: the durable-fresh path at 1000 ms on the page-load state,
and a concrete refresh settling each way. -/
theorem c3_stale_while_revalidate_witness :
    (getLKG cexInit.store cexKey = some cexRec ∧
      isFreshAt cexRec.fetchedAt 300 1000 = true ∧
      callStep cexInit cexUrl cexOpts 1000 =
        (.immediate (.ok ⟨"old", "lkg", 0⟩),
         { cexInit with refreshes := cexInit.refreshes ++ [⟨cexKey, cexUrl, 300⟩],
                        mem := aset cexInit.mem cexKey cexRec })) ∧
    refreshDone ⟨[], [], [], [⟨cexKey, cexUrl, 300⟩]⟩ ⟨cexKey, cexUrl, 300⟩
        (.failure "down") 7777 false =
      ⟨[], [], [], []⟩ :=
  ⟨⟨by decide, by decide,
    c3_stale_while_revalidate.1 cexInit cexUrl cexOpts 1000 cexRec
      (fun rm h => by simp [cexInit, alookup] at h) (by decide) (by decide)⟩,
   c3_stale_while_revalidate.2.2 ⟨[], [], [], [⟨cexKey, cexUrl, 300⟩]⟩
     ⟨cexKey, cexUrl, 300⟩ "down" 7777 false (by decide)⟩

/-- C3 counterexample: the claim as stated is false on the tag — the
durable-hit result is tagged with the string `lkg`, not `durable`. -/
theorem c3_counterexample :
    (callStep cexInit cexUrl cexOpts 1000).1 =
      .immediate (.ok ⟨"old", "lkg", 0⟩) ∧
    (FWCResult.mk "old" "lkg" 0).source ≠ "durable" := by decide

/-- C4: a burst of `n + 1` back-to-back calls for the same key while
neither cache layer holds a fresh copy and no flight for the key is
registered performs exactly one network attempt: the first call starts
the single flight (capturing the entry timestamp and the durable read)
and every later call joins it, so all callers await the same flight's
outcome; the state gains exactly that one flight and nothing else (no
refresh, no cache write); and once the flight settles — success or
failure — no inflight entry for the key remains. -/
theorem c4_single_flight_coalescing :
    ∀ (s : SysState) (url : UrlInput) (o : Options) (now : Nat) (n : Nat),
      (∀ r, alookup s.mem (keyFrom url o.version) = some r →
        isFreshAt r.fetchedAt o.ttlSec now = false) →
      (∀ r, getLKG s.store (keyFrom url o.version) = some r →
        isFreshAt r.fetchedAt o.ttlSec now = false) →
      s.flights.all (fun f => f.key != keyFrom url o.version) = true →
      (runCalls url o now s (n + 1)).1 =
          .started (keyFrom url o.version) ::
            List.replicate n (.joined (keyFrom url o.version)) ∧
      (runCalls url o now s (n + 1)).2 =
        { s with flights := s.flights ++
            [⟨keyFrom url o.version, url, o.ttlSec, now,
              getLKG s.store (keyFrom url o.version)⟩] } ∧
      (∀ (out : FetchOutcome) (q : Bool),
        (flightDone (runCalls url o now s (n + 1)).2 (keyFrom url o.version)
            out q).flights.filter (fun f => f.key == keyFrom url o.version) = []) := by
  intro s url o now n hmem hlkg hfl
  have hburst := runCalls_burst hmem hlkg hfl n
  refine ⟨by rw [hburst], by rw [hburst], ?_⟩
  intro out q
  rw [hburst]
  refine flightDone_no_flight out q ?_
  simp [List.any_append]

/-- C4 witness: three back-to-back calls on the empty state yield one
started flight and two joins, and the settled flight's entry is gone. -/
theorem c4_single_flight_coalescing_witness :
    (([] : List Flight).all (fun f => f.key != cexKey) = true) ∧
    (runCalls cexUrl cexOpts 0 ⟨[], [], [], []⟩ 3).1 =
      .started cexKey :: List.replicate 2 (.joined cexKey) ∧
    (∀ (out : FetchOutcome) (q : Bool),
      (flightDone (runCalls cexUrl cexOpts 0 ⟨[], [], [], []⟩ 3).2 cexKey
          out q).flights.filter (fun f => f.key == cexKey) = []) :=
  ⟨by decide,
   (c4_single_flight_coalescing ⟨[], [], [], []⟩ cexUrl cexOpts 0 2
     (fun r h => by simp [alookup] at h)
     (fun r h => by simp [getLKG, alookup] at h)
     (by decide)).1,
   (c4_single_flight_coalescing ⟨[], [], [], []⟩ cexUrl cexOpts 0 2
     (fun r h => by simp [alookup] at h)
     (fun r h => by simp [getLKG, alookup] at h)
     (by decide)).2.2⟩

/-- C5 (amended): every value `fetchWithCache` resolves with carries a
`source` field among exactly the four strings `mem`, `lkg`, `net`,
`stale` — not the spec's `memory`, `durable`, `network`, `stale` — and a
second back-to-back call with the same URL, options and timestamp after a
first successful networked call returns `source = "mem"`. -/
theorem c5_source_tag_values :
    (∀ (s : SysState) (url : UrlInput) (o : Options) (now : Nat) (r : FWCResult),
      (callStep s url o now).1 = .immediate (.ok r) →
      r.source ∈ (["mem", "lkg", "net", "stale"] : List String)) ∧
    (∀ (f : Flight) (out : FetchOutcome) (r : FWCResult),
      resolveFlight f out = .ok r →
      r.source ∈ (["mem", "lkg", "net", "stale"] : List String)) ∧
    (callStep scnAfterFirst scnUrl cexOpts 5000).1 =
      .immediate (.ok ⟨"payload", "mem", 5000⟩) := by
  refine ⟨?_, ?_, by decide⟩
  · intro s url o now r h
    rcases callStep_cases s url o now with ⟨r', hc, hsrc, _⟩ | ⟨hc, _⟩ | ⟨hc, _⟩
    · rw [hc] at h
      cases h
      rcases hsrc with hs | hs <;> simp [hs]
    · rw [hc] at h
      cases h
    · rw [hc] at h
      cases h
  · intro f out r h
    cases out with
    | success d =>
      simp only [resolveFlight] at h
      cases h
      simp
    | failure e =>
      cases hl : f.lkg0 with
      | none => simp [resolveFlight, hl] at h
      | some rr =>
        by_cases hlt : f.startedAt - rr.fetchedAt < f.ttlSec * 1000 + LKG_GRACE_MS
        · simp only [resolveFlight, hl, if_pos hlt] at h
          cases h
          simp
        · simp [resolveFlight, hl, if_neg hlt] at h

/-- C5 witness: a successful flight resolution is tagged `net`, which is
among the four tags the code produces. -/
theorem c5_source_tag_witness :
    resolveFlight ⟨cexKey, cexUrl, 300, 0, none⟩ (.success "x") =
      .ok ⟨"x", "net", 0⟩ ∧
    (FWCResult.mk "x" "net" 0).source ∈ (["mem", "lkg", "net", "stale"] : List String) :=
  ⟨by decide,
   c5_source_tag_values.2.1 ⟨cexKey, cexUrl, 300, 0, none⟩ (.success "x")
     ⟨"x", "net", 0⟩ (by decide)⟩

/-- C5 counterexample: the claim as stated is false — in end-to-end
scenario A the second call's source is the string `mem`, which is not
`memory` and not among the spec's four strings at all. -/
theorem c5_counterexample :
    (callStep scnAfterFirst scnUrl cexOpts 5000).1 =
      .immediate (.ok ⟨"payload", "mem", 5000⟩) ∧
    (FWCResult.mk "payload" "mem" 5000).source ∉
      (["memory", "durable", "network", "stale"] : List String) := by decide

/-- C6 (amended): for every parseable URL and every permutation of its
query parameters whose names are pairwise distinct, `keyFrom` produces the
identical key; normalization is idempotent in that re-sorting an already
normalized parameter list changes nothing; and for a fixed URL any change
of the version argument produces a different key. The unrestricted
permutation claim is refuted by duplicate parameter names: the sort is
stable and compares names only, so swapping two same-named parameters
permutes the serialized values and changes the key (see counterexample). -/
theorem c6_key_normalization :
    (∀ (base : String) (ps1 ps2 : List (String × String)) (v : String),
      List.Perm ps1 ps2 → (ps1.map Prod.fst).Nodup →
      keyFrom (.parsed base ps1) v = keyFrom (.parsed base ps2) v) ∧
    (∀ ps : List (String × String), sortParams (sortParams ps) = sortParams ps) ∧
    (∀ (url : UrlInput) (v1 v2 : String), v1 ≠ v2 →
      keyFrom url v1 ≠ keyFrom url v2) := by
  refine ⟨?_, ?_, ?_⟩
  · intro base ps1 ps2 v hperm hnd
    simp only [keyFrom]
    rw [sortParams_perm_eq hperm hnd]
  · intro ps
    exact List.Sorted.insertionSort_eq (List.sorted_insertionSort paramLE ps)
  · intro url v1 v2 hne heq
    exact hne (keyFrom_version_inj heq)

/-- C6 witness: the two parameter orders of scenario A normalize to one
key, and bumping the version changes the key. -/
theorem c6_key_normalization_witness :
    List.Perm [("b", "2"), ("a", "1")] [("a", "1"), ("b", "2")] ∧
    ((([("b", "2"), ("a", "1")] : List (String × String)).map Prod.fst).Nodup) ∧
    keyFrom (.parsed "https://x/y" [("b", "2"), ("a", "1")]) "1" =
      keyFrom (.parsed "https://x/y" [("a", "1"), ("b", "2")]) "1" ∧
    ("1" : String) ≠ "2" ∧
    keyFrom (.parsed "https://x/y" [("b", "2"), ("a", "1")]) "1" ≠
      keyFrom (.parsed "https://x/y" [("b", "2"), ("a", "1")]) "2" :=
  ⟨by decide, by decide,
   c6_key_normalization.1 "https://x/y" [("b", "2"), ("a", "1")]
     [("a", "1"), ("b", "2")] "1" (by decide) (by decide),
   by decide,
   c6_key_normalization.2.2 (.parsed "https://x/y" [("b", "2"), ("a", "1")])
     "1" "2" (by decide)⟩

/-- C6 counterexample: the claim as stated quantifies over every
permutation; with the duplicate parameter name `a` the permuted query
produces a different key. -/
theorem c6_counterexample :
    List.Perm [("a", "1"), ("a", "2")] [("a", "2"), ("a", "1")] ∧
    keyFrom (.parsed "https://x/y" [("a", "1"), ("a", "2")]) "1" ≠
      keyFrom (.parsed "https://x/y" [("a", "2"), ("a", "1")]) "1" := by decide

/-- C7: normalization and the durable adapter are total functions of the
model and never throw; a malformed URL normalizes to the literal
concatenation `url ++ "|v=" ++ version`; the durable read yields `none`
on a missing cell, on stored content `JSON.parse` rejects, and on a
throwing storage access; a quota-failed durable write leaves the store
unchanged; and on the network-success path a quota-failed durable write
still lets the in-memory write and the caller's `net` result go through. -/
theorem c7_storage_fault_tolerance :
    (∀ raw v : String, keyFrom (.malformed raw) v = raw ++ "|v=" ++ v) ∧
    (∀ (st : List (String × StoredVal)) (k : String),
      alookup st k = none → getLKG st k = none) ∧
    (∀ (st : List (String × StoredVal)) (k raw : String),
      alookup st k = some (.corrupt raw) → getLKG st k = none) ∧
    (∀ (st : List (String × StoredVal)) (k : String),
      alookup st k = some .accessError → getLKG st k = none) ∧
    (∀ (st : List (String × StoredVal)) (k : String) (r : CacheRecord),
      setLKG st k r true = st) ∧
    (∀ (s : SysState) (k d : String) (f : Flight),
      s.flights.find? (fun g => g.key == k) = some f →
      (flightDone s k (.success d) true).mem =
        aset s.mem f.key ⟨d, f.startedAt, f.ttlSec⟩ ∧
      (flightDone s k (.success d) true).store = s.store ∧
      resolveFlight f (.success d) = .ok ⟨d, "net", f.startedAt⟩) := by
  refine ⟨fun _ _ => rfl, ?_, ?_, ?_, ?_, ?_⟩
  · intro st k h
    simp [getLKG, h]
  · intro st k raw h
    simp [getLKG, h]
  · intro st k h
    simp [getLKG, h]
  · intro st k r
    simp [setLKG]
  · intro s k d f hf
    unfold flightDone
    rw [hf]
    exact ⟨rfl, by simp [setLKG], rfl⟩

/-- C7 witness: a store with a corrupt cell and a throwing cell reads as
absent everywhere, and a flight settling under a quota failure still
updates memory and resolves `net`. -/
theorem c7_storage_fault_tolerance_witness :
    keyFrom (.malformed "http://[bad") "7" = "http://[bad" ++ "|v=" ++ "7" ∧
    getLKG [("k1", StoredVal.corrupt "oops"), ("k2", StoredVal.accessError)] "k0" = none ∧
    getLKG [("k1", StoredVal.corrupt "oops"), ("k2", StoredVal.accessError)] "k1" = none ∧
    getLKG [("k1", StoredVal.corrupt "oops"), ("k2", StoredVal.accessError)] "k2" = none ∧
    (flightDone ⟨[], [], [⟨"k", cexUrl, 300, 42, none⟩], []⟩ "k" (.success "x") true).mem =
      [("k", ⟨"x", 42, 300⟩)] ∧
    (flightDone ⟨[], [], [⟨"k", cexUrl, 300, 42, none⟩], []⟩ "k" (.success "x") true).store = [] :=
  ⟨c7_storage_fault_tolerance.1 "http://[bad" "7",
   c7_storage_fault_tolerance.2.1 _ "k0" (by decide),
   c7_storage_fault_tolerance.2.2.1 _ "k1" "oops" (by decide),
   c7_storage_fault_tolerance.2.2.2.1 _ "k2" (by decide),
   (c7_storage_fault_tolerance.2.2.2.2.2 ⟨[], [], [⟨"k", cexUrl, 300, 42, none⟩], []⟩
     "k" "x" ⟨"k", cexUrl, 300, 42, none⟩ (by decide)).1,
   (c7_storage_fault_tolerance.2.2.2.2.2 ⟨[], [], [⟨"k", cexUrl, 300, 42, none⟩], []⟩
     "k" "x" ⟨"k", cexUrl, 300, 42, none⟩ (by decide)).2.1⟩

/-- C8: the freshness test `(now - fetchedAt) < ttlSec * 1000` the
orchestrator applies holds for every `now` in `[t0, t0 + 1000*s)` and
fails for every `now ≥ t0 + 1000*s`. -/
theorem c8_freshness_monotonic :
    ∀ t0 s now : Nat,
      (t0 ≤ now → now < t0 + s * 1000 → isFreshAt t0 s now = true) ∧
      (t0 + s * 1000 ≤ now → isFreshAt t0 s now = false) := by
  intro t0 s now
  constructor
  · intro h1 h2
    simp only [isFreshAt, decide_eq_true_eq]
    omega
  · intro h
    simp only [isFreshAt, decide_eq_false_iff_not]
    omega

/-- C8 witness: the boundary instants of a 2-second TTL starting at 5 ms. -/
theorem c8_freshness_monotonic_witness :
    (5 ≤ 2004 ∧ 2004 < 5 + 2 * 1000 ∧ isFreshAt 5 2 2004 = true) ∧
    (5 + 2 * 1000 ≤ 2005 ∧ isFreshAt 5 2 2005 = false) :=
  ⟨⟨by decide, by decide, (c8_freshness_monotonic 5 2 2004).1 (by decide) (by decide)⟩,
   ⟨by decide, (c8_freshness_monotonic 5 2 2005).2 (by decide)⟩⟩

/-- C9: the `retries` option is never consumed — two calls identical in
everything but `retries` run the same synchronous step, producing the same
outcome and the same state (hence the same single network attempt at
most), and the settlement functions do not take options at all. -/
theorem c9_retries_never_consumed :
    ∀ (s : SysState) (url : UrlInput) (ttl r1 r2 : Nat) (v : String) (now : Nat),
      callStep s url ⟨ttl, r1, v⟩ now = callStep s url ⟨ttl, r2, v⟩ now :=
  fun _ _ _ _ _ _ _ => rfl

/-- C10: a record written by the foreground fetch carries `fetchedAt`
equal to the timestamp captured when `fetchWithCache` was entered — the
flight registers that entry timestamp before any response exists, and the
record written at settlement reuses it unchanged, whenever the settlement
happens — while a record written by the background refresh carries the
timestamp of its own completion. -/
theorem c10_fetchedAt_provenance :
    (∀ (s : SysState) (url : UrlInput) (o : Options) (now : Nat) (k : String),
      (callStep s url o now).1 = .started k →
      (callStep s url o now).2.flights = s.flights ++
        [⟨keyFrom url o.version, url, o.ttlSec, now,
          getLKG s.store (keyFrom url o.version)⟩]) ∧
    (∀ (s : SysState) (k d : String) (q : Bool) (f : Flight),
      s.flights.find? (fun g => g.key == k) = some f →
      alookup (flightDone s k (.success d) q).mem f.key =
        some ⟨d, f.startedAt, f.ttlSec⟩) ∧
    (∀ (s : SysState) (rr : Refresh) (d : String) (t : Nat) (q : Bool),
      s.refreshes.contains rr = true →
      alookup (refreshDone s rr (.success d) t q).mem rr.key =
        some ⟨d, t, rr.ttlSec⟩) := by
  refine ⟨?_, ?_, ?_⟩
  · intro s url o now k h
    rcases callStep_cases s url o now with ⟨r, hc, _, _⟩ | ⟨hc, _⟩ | ⟨hc, hstate⟩
    · rw [hc] at h
      cases h
    · rw [hc] at h
      cases h
    · rw [hstate]
  · intro s k d q f hf
    unfold flightDone
    rw [hf]
    exact alookup_aset_self _ _ _
  · intro s rr d t q hc
    unfold refreshDone
    rw [if_pos hc]
    exact alookup_aset_self _ _ _

/-- C10 witness: a flight started at 42 ms settling later writes a record
stamped 42; a refresh completing at 7777 ms writes a record stamped 7777. -/
theorem c10_fetchedAt_provenance_witness :
    ((⟨[], [], [⟨"k", cexUrl, 300, 42, none⟩], []⟩ : SysState).flights.find?
        (fun g => g.key == "k") = some ⟨"k", cexUrl, 300, 42, none⟩) ∧
    alookup (flightDone ⟨[], [], [⟨"k", cexUrl, 300, 42, none⟩], []⟩ "k"
        (.success "x") false).mem "k" = some ⟨"x", 42, 300⟩ ∧
    alookup (refreshDone ⟨[], [], [], [⟨"k", cexUrl, 300⟩]⟩ ⟨"k", cexUrl, 300⟩
        (.success "y") 7777 false).mem "k" = some ⟨"y", 7777, 300⟩ :=
  ⟨by decide,
   c10_fetchedAt_provenance.2.1 ⟨[], [], [⟨"k", cexUrl, 300, 42, none⟩], []⟩
     "k" "x" false ⟨"k", cexUrl, 300, 42, none⟩ (by decide),
   c10_fetchedAt_provenance.2.2 ⟨[], [], [], [⟨"k", cexUrl, 300⟩]⟩
     ⟨"k", cexUrl, 300⟩ "y" 7777 false (by decide)⟩
